import Mathlib

/-!
# Verification of the TLS constraints admission controller

A shallow embedding of `src/charm.py` (canonical/tls-constraints): the CSR
admission filters (`LimitToOneRequest`, `LimitToFirstRequester`), the
controller `_is_certificate_allowed`, the relation resolver
`_get_relation_id_for_csr`, the certificate-available handler, and the
event-level state transitions touching the reservation table, together with
theorems settling the specification claims.
-/

namespace TLSConstraints

/-! ## CSR model

A CSR is an immutable byte string.  The code only ever inspects it through
`x509.load_pem_x509_csr`: either the bytes do not parse (`ValueError`), or
they parse but carry no SubjectAlternativeName extension
(`x509.ExtensionNotFound` when the extension is requested), or parsing
yields the subject common names, SAN DNS names, SAN IP addresses (canonical
string form of the parsed address) and SAN registered-OID dotted strings.
We record the parse outcome alongside the bytes. -/

inductive CsrParse where
  | malformed
  | noSAN (subjects : List String)
  | parsed (subjects : List String) (dnss : List String) (ips : List String) (oids : List String)
deriving DecidableEq, Repr

structure Csr where
  bytes : String
  parse : CsrParse
deriving DecidableEq, Repr

/-- The fields of `RequirerCSR` from the tls_certificates library that the
charm reads: the relation id of the requesting tenant and the CSR itself. -/
structure RequirerCSR where
  relation_id : Int
  csr : Csr
deriving DecidableEq, Repr

/-- The two exceptions that `LimitToFirstRequester` can raise while reading a
CSR: `ValueError` from `load_pem_x509_csr` on unparsable bytes, and
`x509.ExtensionNotFound` from `extensions.get_extension_for_class` when the
SubjectAlternativeName extension is absent. -/
inductive EvalErr where
  | parseError
  | extensionNotFound
deriving DecidableEq, Repr

/-! ## Python dict operations

The reserved-identifiers mapping is a JSON document
`dict[Literal["dns", "ip", "oid"], dict[str, int]]`.  We model each inner
dict as an association list; `dget` is `d.get(k)` / `k in d`, `dinsert`
updates an existing key in place or appends a fresh one, and `dunion` is the
right-biased dict union `m | f`. -/

def dget (m : List (String × Int)) (k : String) : Option Int :=
  (m.find? (fun p => p.1 = k)).map (fun p => p.2)

def dinsert (m : List (String × Int)) (k : String) (v : Int) : List (String × Int) :=
  if m.any (fun p => p.1 = k) then
    m.map (fun p => if p.1 = k then (k, v) else p)
  else m ++ [(k, v)]

def dunion (m : List (String × Int)) : List (String × Int) → List (String × Int)
  | [] => m
  | p :: rest => dunion (dinsert m p.1 p.2) rest

/-- The three-kind reservation table stored in the peer relation databag
under the `reserved-identifiers` key (missing kind keys read as `{}`). -/
structure ReservedMap where
  dns : List (String × Int)
  ip : List (String × Int)
  oid : List (String × Int)
deriving DecidableEq, Repr

/-! ## Filter: LimitToOneRequest -/

/-- `LimitToOneRequest.evaluate`: keep the requirer CSRs whose relation id
matches and deny when there is more than one.  The submitted CSR bytes are
never inspected (the comprehension variable shadows the parameter). -/
def LimitToOneRequest.evaluate (csr : Csr) (relation_id : Int)
    (requirer_csrs : List RequirerCSR) : Bool :=
  let relevant_csrs := requirer_csrs.filter (fun c => c.relation_id == relation_id)
  if 1 < relevant_csrs.length then false
  else true

/-! ## Filter: LimitToFirstRequester -/

/-- Log lines emitted by `LimitToFirstRequester.evaluate`: the
`logger.error` for a missing peer relation and the `DENY_MSG` warning with
the identifier kind, relation id and offending value. -/
inductive Diag where
  | peerRelationMissing
  | denyReserved (kind : String) (relation_id : Int) (value : String)
deriving DecidableEq, Repr

/-- The per-identifier test of the deny loops:
`x in reserved.get(kind, {}) and reserved[kind][x] != relation_id`. -/
def ownedByOther (m : List (String × Int)) (k : String) (relation_id : Int) : Bool :=
  match dget m k with
  | some t => t != relation_id
  | none => false

/-- A deny loop of `LimitToFirstRequester.evaluate`: return the first value
of the chained iterable that is reserved by a different relation. -/
def firstReserved (m : List (String × Int)) (relation_id : Int) : List String → Option String
  | [] => none
  | x :: xs =>
    if ownedByOther m x relation_id then some x
    else firstReserved m relation_id xs

/-- `LimitToFirstRequester.evaluate`.  `relation` is the peer relation:
`none` when the peer relation has not joined, `some reserved` the parsed
`reserved-identifiers` databag document.  Returns the emitted log lines
paired with the outcome (an `Except.error` is an exception propagating out
of the method). -/
def LimitToFirstRequester.evaluate (relation : Option ReservedMap) (csr : Csr)
    (relation_id : Int) : List Diag × Except EvalErr Bool :=
  match relation with
  | none => ([Diag.peerRelationMissing], Except.ok false)
  | some reserved =>
    match csr.parse with
    | CsrParse.malformed => ([], Except.error EvalErr.parseError)
    | CsrParse.noSAN _ => ([], Except.error EvalErr.extensionNotFound)
    | CsrParse.parsed subjects dnss ips oids =>
      match firstReserved reserved.dns relation_id (dnss ++ subjects) with
      | some d => ([Diag.denyReserved "DNS" relation_id d], Except.ok false)
      | none =>
        match firstReserved reserved.ip relation_id (ips ++ subjects) with
        | some i => ([Diag.denyReserved "IP" relation_id i], Except.ok false)
        | none =>
          match firstReserved reserved.oid relation_id (oids ++ subjects) with
          | some o => ([Diag.denyReserved "OID" relation_id o], Except.ok false)
          | none => ([], Except.ok true)

/-- `_get_reserved_identifiers`: `{}` when the relation is missing,
otherwise the databag document. -/
def getReservedIdentifiers : Option ReservedMap → ReservedMap
  | none => ⟨[], [], []⟩
  | some m => m

/-- `_set_reserved_identifiers`: a silent no-op when the relation is
missing, otherwise replace the databag document. -/
def setReservedIdentifiers : Option ReservedMap → ReservedMap → Option ReservedMap
  | none, _ => none
  | some _, newMapping => some newMapping

/-- `LimitToFirstRequester._update_reserved_identifier_mapping`: parse the
CSR (both parse failures raise), then merge `{value: relation_id}` for every
SAN DNS/IP/OID value into the corresponding kind table with the right-biased
dict union `|`, and store the result. -/
def LimitToFirstRequester.updateReservedIdentifierMapping (relation : Option ReservedMap)
    (csr : Csr) (relation_id : Int) : Except EvalErr (Option ReservedMap) :=
  match csr.parse with
  | CsrParse.malformed => Except.error EvalErr.parseError
  | CsrParse.noSAN _ => Except.error EvalErr.extensionNotFound
  | CsrParse.parsed _ dnss ips oids =>
    let cur := getReservedIdentifiers relation
    let newMapping : ReservedMap :=
      { dns := dunion cur.dns (dnss.map (fun d => (d, relation_id)))
        ip := dunion cur.ip (ips.map (fun i => (i, relation_id)))
        oid := dunion cur.oid (oids.map (fun o => (o, relation_id))) }
    Except.ok (setReservedIdentifiers relation newMapping)

/-- `LimitToFirstRequester.callback` delegates to
`_update_reserved_identifier_mapping`. -/
def LimitToFirstRequester.callback (relation : Option ReservedMap) (csr : Csr)
    (relation_id : Int) : Except EvalErr (Option ReservedMap) :=
  LimitToFirstRequester.updateReservedIdentifierMapping relation csr relation_id

/-! ## Admission controller -/

inductive CsrFilter where
  | limitToOneRequest
  | limitToFirstRequester
deriving DecidableEq, Repr

/-- The charm configuration flags selecting the active filters. -/
structure Config where
  limit_to_one_request : Bool
  limit_to_first_requester : Bool
deriving DecidableEq, Repr

/-- `_get_csr_filters`: `LimitToOneRequest` first when enabled, then
`LimitToFirstRequester` when enabled. -/
def getCsrFilters (config : Config) : List CsrFilter :=
  (if config.limit_to_one_request then [CsrFilter.limitToOneRequest] else []) ++
    (if config.limit_to_first_requester then [CsrFilter.limitToFirstRequester] else [])

/-- Dispatch `filter.evaluate(csr, relation_id, requirer_csrs)`.
`LimitToOneRequest.evaluate` cannot raise; for `LimitToFirstRequester` we
keep the outcome and drop the log lines. -/
def evaluateFilter (f : CsrFilter) (relation : Option ReservedMap) (csr : Csr)
    (relation_id : Int) (requirer_csrs : List RequirerCSR) : Except EvalErr Bool :=
  match f with
  | CsrFilter.limitToOneRequest =>
    Except.ok (LimitToOneRequest.evaluate csr relation_id requirer_csrs)
  | CsrFilter.limitToFirstRequester =>
    (LimitToFirstRequester.evaluate relation csr relation_id).2

/-- Dispatch `filter.callback(csr, relation_id)` on the peer relation state.
`LimitToOneRequest.callback` is `pass`. -/
def callbackFilter (f : CsrFilter) (relation : Option ReservedMap) (csr : Csr)
    (relation_id : Int) : Except EvalErr (Option ReservedMap) :=
  match f with
  | CsrFilter.limitToOneRequest => Except.ok relation
  | CsrFilter.limitToFirstRequester => LimitToFirstRequester.callback relation csr relation_id

/-- `all(filter.evaluate(csr, relation_id, all_requirers_csrs) for filter in
filters)`: the generator short-circuits on the first `False`, and an
exception raised by an `evaluate` propagates. -/
def evalAll (filters : List CsrFilter) (relation : Option ReservedMap) (csr : Csr)
    (relation_id : Int) (requirer_csrs : List RequirerCSR) : Except EvalErr Bool :=
  match filters with
  | [] => Except.ok true
  | f :: rest =>
    match evaluateFilter f relation csr relation_id requirer_csrs with
    | Except.error e => Except.error e
    | Except.ok false => Except.ok false
    | Except.ok true => evalAll rest relation csr relation_id requirer_csrs

/-- `[filter.callback(csr, relation_id) for filter in filters]`: run every
callback in chain order, threading the peer relation state, and record the
sequence of filters whose callback was invoked. -/
def runCallbacks (filters : List CsrFilter) (relation : Option ReservedMap) (csr : Csr)
    (relation_id : Int) : Except EvalErr (Option ReservedMap × List CsrFilter) :=
  match filters with
  | [] => Except.ok (relation, [])
  | f :: rest =>
    match callbackFilter f relation csr relation_id with
    | Except.error e => Except.error e
    | Except.ok relation' =>
      match runCallbacks rest relation' csr relation_id with
      | Except.error e => Except.error e
      | Except.ok (relation'', invoked) => Except.ok (relation'', f :: invoked)

/-- `TLSConstraintsCharm._is_certificate_allowed`: evaluate all active
filters; if any denies, return `False` without running any callback;
otherwise run every callback in order and return `True`.  The result also
carries the final peer relation state and the sequence of invoked
callbacks. -/
def isCertificateAllowed (config : Config) (relation : Option ReservedMap) (csr : Csr)
    (relation_id : Int) (requirer_csrs : List RequirerCSR) :
    Except EvalErr (Bool × Option ReservedMap × List CsrFilter) :=
  let filters := getCsrFilters config
  match evalAll filters relation csr relation_id requirer_csrs with
  | Except.error e => Except.error e
  | Except.ok false => Except.ok (false, relation, [])
  | Except.ok true =>
    match runCallbacks filters relation csr relation_id with
    | Except.error e => Except.error e
    | Except.ok (relation', invoked) => Except.ok (true, relation', invoked)

/-! ## Relation resolver and certificate-available handler -/

/-- `TLSConstraintsCharm._get_relation_id_for_csr`: collect the set of
relation ids of the requirer CSRs whose CSR string equals the searched one
(exact byte equality); `None` when the set is empty or has more than one
element, otherwise its unique element. -/
def getRelationIdForCsr (requirer_csrs : List RequirerCSR) (csr : String) : Option Int :=
  let relationIds :=
    ((requirer_csrs.filter (fun r => r.csr.bytes == csr)).map (fun r => r.relation_id)).dedup
  match relationIds with
  | [] => none
  | [rid] => some rid
  | _ => none

/-- `TLSConstraintsCharm._on_certificate_available`: resolve the relation id
for the event's CSR; `if not relation_id:` (Python truthiness, so both
`None` and `0` fail the guard) log and drop, otherwise forward the
certificate to that relation.  The result is the relation id the
certificate is delivered to, `none` when it is dropped. -/
def onCertificateAvailable (requirer_csrs : List RequirerCSR) (csr : String) : Option Int :=
  match getRelationIdForCsr requirer_csrs csr with
  | none => none
  | some relation_id => if relation_id == 0 then none else some relation_id

/-! ## Tenant submission and event-level state transitions -/

/-- Modelled from the spec: the Tenant Channel's delivery of a new CSR is
not under `src/` (it lives in the tls_certificates interface library).  Per
the spec, the caller adds the submitted CSR to the outstanding-request set
before the admission evaluation runs, and a renewal resubmission of a CSR
identical to an existing entry of the same tenant "does not increase the
count beyond the existing single entry". -/
def submitCsr (requirer_csrs : List RequirerCSR) (relation_id : Int) (csr : Csr) :
    List RequirerCSR :=
  if requirer_csrs.any (fun r => r.relation_id == relation_id && r.csr == csr) then
    requirer_csrs
  else requirer_csrs ++ [⟨relation_id, csr⟩]

/-- The inbound events handled by `TLSConstraintsCharm` that could touch the
reservation table.  Each event carries the inputs the handler reads from its
environment (the outstanding requirer CSRs, whether the upstream provider
relation exists). -/
inductive Event where
  | creationRequest (csr : Csr) (relation_id : Int) (requirer_csrs : List RequirerCSR)
      (hasProvider : Bool)
  | revocationRequest (csr : Csr) (hasProvider : Bool)
  | certificateAvailable (csr : String) (requirer_csrs : List RequirerCSR)
  | certificateInvalidated (reason : String)
  | allCertificatesInvalidated
deriving DecidableEq, Repr

/-- The effect of one event handler on the peer relation databag (the only
persistent state of the charm).  `_on_certificate_creation_request` defers
when no provider relation exists; otherwise it commits the filter callbacks
exactly when the decision is allowed, and a raised exception aborts the hook
before any write (`_update_reserved_identifier_mapping` parses before it
stores).  No other handler reads or writes the reservation table. -/
def step (config : Config) (relation : Option ReservedMap) : Event → Option ReservedMap
  | Event.creationRequest csr relation_id requirer_csrs hasProvider =>
    if !hasProvider then relation
    else
      match isCertificateAllowed config relation csr relation_id requirer_csrs with
      | Except.ok (true, relation', _) => relation'
      | Except.ok (false, _, _) => relation
      | Except.error _ => relation
  | Event.revocationRequest _ _ => relation
  | Event.certificateAvailable _ _ => relation
  | Event.certificateInvalidated _ => relation
  | Event.allCertificatesInvalidated => relation

/-! ## Lemmas about the dict operations -/

theorem dget_nil (k : String) : dget [] k = none := rfl

theorem dget_cons (a : String × Int) (m : List (String × Int)) (k : String) :
    dget (a :: m) k = if a.1 = k then some a.2 else dget m k := by
  by_cases h : a.1 = k <;> simp [dget, h]

theorem dget_append (m₁ m₂ : List (String × Int)) (k : String) :
    dget (m₁ ++ m₂) k = (dget m₁ k).or (dget m₂ k) := by
  cases h : m₁.find? (fun p => decide (p.1 = k)) <;>
    simp [dget, List.find?_append, h, Option.or]

theorem dget_eq_none_of_not_any (m : List (String × Int)) (k : String)
    (hany : ¬m.any (fun p => p.1 = k) = true) : dget m k = none := by
  simp only [dget, Option.map_eq_none']
  rw [List.find?_eq_none]
  intro p hp
  simp only [decide_eq_true_eq]
  intro hpk
  exact hany (List.any_eq_true.2 ⟨p, hp, by simp [hpk]⟩)

theorem dget_map_update_ne (m : List (String × Int)) (k k' : String) (v : Int)
    (hne : k' ≠ k) :
    dget (m.map (fun p => if p.1 = k then (k, v) else p)) k' = dget m k' := by
  induction m with
  | nil => rfl
  | cons a t ih =>
    by_cases ha : a.1 = k
    · simp only [List.map_cons, if_pos ha, dget_cons, ih]
      rw [if_neg (Ne.symm hne), if_neg (ha ▸ fun h => hne h.symm)]
    · simp only [List.map_cons, if_neg ha, dget_cons, ih]

theorem dget_map_update_self (m : List (String × Int)) (k : String) (v : Int)
    (h : m.any (fun p => p.1 = k) = true) :
    dget (m.map (fun p => if p.1 = k then (k, v) else p)) k = some v := by
  induction m with
  | nil => simp at h
  | cons a t ih =>
    by_cases ha : a.1 = k
    · simp [List.map_cons, if_pos ha, dget_cons]
    · simp only [List.any_cons, Bool.or_eq_true, decide_eq_true_eq, ha, false_or] at h
      simp [List.map_cons, if_neg ha, dget_cons, ha, ih h]

theorem dget_dinsert (m : List (String × Int)) (k : String) (v : Int) (k' : String) :
    dget (dinsert m k v) k' = if k' = k then some v else dget m k' := by
  unfold dinsert
  by_cases hany : m.any (fun p => p.1 = k) = true
  · rw [if_pos hany]
    by_cases hk : k' = k
    · subst hk
      rw [if_pos rfl]
      exact dget_map_update_self m k' v hany
    · rw [if_neg hk]
      exact dget_map_update_ne m k k' v hk
  · rw [if_neg hany, dget_append]
    by_cases hk : k' = k
    · subst hk
      rw [dget_eq_none_of_not_any m k' hany, if_pos rfl]
      simp [dget_cons]
    · rw [if_neg hk, dget_cons, if_neg (Ne.symm hk)]
      simp [dget_nil, Option.or_none]

theorem dget_dunion_const (vals : List String) (m : List (String × Int)) (rid : Int)
    (k : String) :
    dget (dunion m (vals.map (fun v => (v, rid)))) k =
      if k ∈ vals then some rid else dget m k := by
  induction vals generalizing m with
  | nil => simp [dunion]
  | cons v rest ih =>
    simp only [List.map_cons, dunion, ih, dget_dinsert, List.mem_cons]
    by_cases hrest : k ∈ rest
    · simp [hrest]
    · by_cases hv : k = v <;> simp [hrest, hv]

theorem mem_dinsert (m : List (String × Int)) (k : String) (v : Int)
    (p : String × Int) (hp : p ∈ dinsert m k v) :
    (p ∈ m ∧ p.1 ≠ k) ∨ p = (k, v) := by
  unfold dinsert at hp
  by_cases hany : m.any (fun q => q.1 = k) = true
  · rw [if_pos hany] at hp
    obtain ⟨q, hq, hqp⟩ := List.mem_map.1 hp
    by_cases hqk : q.1 = k
    · rw [if_pos hqk] at hqp
      exact Or.inr hqp.symm
    · rw [if_neg hqk] at hqp
      exact Or.inl ⟨hqp ▸ hq, hqp ▸ hqk⟩
  · rw [if_neg hany] at hp
    rcases List.mem_append.1 hp with h | h
    · refine Or.inl ⟨h, fun hk => hany ?_⟩
      exact List.any_eq_true.2 ⟨p, h, by simp [hk]⟩
    · exact Or.inr (by simpa using h)

theorem mem_dunion (f m : List (String × Int)) (p : String × Int)
    (hp : p ∈ dunion m f) : p ∈ m ∨ p ∈ f := by
  induction f generalizing m with
  | nil => exact Or.inl hp
  | cons q rest ih =>
    rcases ih (dinsert m q.1 q.2) hp with h | h
    · rcases mem_dinsert m q.1 q.2 p h with h' | h'
      · exact Or.inl h'.1
      · exact Or.inr (by simp [h'])
    · exact Or.inr (List.mem_cons_of_mem _ h)

theorem dunion_const_values (vals : List String) (m : List (String × Int)) (rid : Int)
    (p : String × Int) (hp : p ∈ dunion m (vals.map (fun v => (v, rid))))
    (hk : p.1 ∈ vals) : p.2 = rid := by
  induction vals generalizing m with
  | nil => simp at hk
  | cons v rest ih =>
    simp only [List.map_cons, dunion] at hp
    by_cases hkr : p.1 ∈ rest
    · exact ih (dinsert m v rid) hp hkr
    · have hkv : p.1 = v := by
        rcases List.mem_cons.1 hk with h | h
        · exact h
        · exact absurd h hkr
      rcases mem_dunion _ _ _ hp with h | h
      · rcases mem_dinsert _ _ _ _ h with h' | h'
        · exact absurd hkv h'.2
        · simp [h']
      · obtain ⟨x, _, hx⟩ := List.mem_map.1 h
        simp [← hx]

theorem map_update_eq_self (m : List (String × Int)) (k : String) (v : Int)
    (h : ∀ p ∈ m, p.1 = k → p.2 = v) :
    m.map (fun p => if p.1 = k then (k, v) else p) = m := by
  induction m with
  | nil => rfl
  | cons a t ih =>
    have ht := ih (fun p hp => h p (List.mem_cons_of_mem a hp))
    by_cases ha : a.1 = k
    · have ha2 := h a (List.mem_cons_self a t) ha
      simp only [List.map_cons, if_pos ha, ht]
      rw [← ha, ← ha2]
    · simp only [List.map_cons, if_neg ha, ht]

theorem dinsert_eq_self (m : List (String × Int)) (k : String) (v : Int)
    (hmem : dget m k = some v) (hall : ∀ p ∈ m, p.1 = k → p.2 = v) :
    dinsert m k v = m := by
  have hany : m.any (fun p => p.1 = k) = true := by
    simp only [dget, Option.map_eq_some'] at hmem
    obtain ⟨p, hp, _⟩ := hmem
    have hpk := List.find?_some hp
    simp only [decide_eq_true_eq] at hpk
    exact List.any_eq_true.2 ⟨p, List.mem_of_find?_eq_some hp, by simp [hpk]⟩
  unfold dinsert
  rw [if_pos hany]
  exact map_update_eq_self m k v hall

theorem dunion_const_eq_self (vals : List String) (M : List (String × Int)) (rid : Int)
    (h : ∀ x ∈ vals, dget M x = some rid ∧ ∀ p ∈ M, p.1 = x → p.2 = rid) :
    dunion M (vals.map (fun v => (v, rid))) = M := by
  induction vals with
  | nil => rfl
  | cons v rest ih =>
    simp only [List.map_cons, dunion]
    have hv := h v (List.mem_cons_self v rest)
    rw [dinsert_eq_self M v rid hv.1 hv.2]
    exact ih (fun x hx => h x (List.mem_cons_of_mem v hx))

theorem dunion_const_idem (vals : List String) (m : List (String × Int)) (rid : Int) :
    dunion (dunion m (vals.map (fun v => (v, rid)))) (vals.map (fun v => (v, rid))) =
      dunion m (vals.map (fun v => (v, rid))) := by
  apply dunion_const_eq_self
  intro x hx
  constructor
  · rw [dget_dunion_const]
    simp [hx]
  · intro p hp hpx
    exact dunion_const_values vals m rid p hp (hpx ▸ hx)

/-! ## Lemmas about the deny loops of LimitToFirstRequester -/

theorem ownedByOther_eq_true_iff (m : List (String × Int)) (k : String) (relation_id : Int) :
    ownedByOther m k relation_id = true ↔
      ∃ t, dget m k = some t ∧ t ≠ relation_id := by
  unfold ownedByOther
  cases h : dget m k <;> simp [bne_iff_ne]

theorem firstReserved_eq_none_iff (m : List (String × Int)) (relation_id : Int)
    (xs : List String) :
    firstReserved m relation_id xs = none ↔
      ∀ x ∈ xs, ownedByOther m x relation_id = false := by
  induction xs with
  | nil => simp [firstReserved]
  | cons x t ih =>
    by_cases h : ownedByOther m x relation_id = true
    · simp [firstReserved, h]
    · simp only [Bool.not_eq_true] at h
      simp [firstReserved, h, ih]

theorem firstReserved_some (m : List (String × Int)) (relation_id : Int)
    (xs : List String) (x : String) (h : firstReserved m relation_id xs = some x) :
    x ∈ xs ∧ ownedByOther m x relation_id = true := by
  induction xs with
  | nil => simp [firstReserved] at h
  | cons a t ih =>
    by_cases ha : ownedByOther m a relation_id = true
    · simp only [firstReserved, if_pos ha, Option.some.injEq] at h
      subst h
      exact ⟨List.mem_cons_self a t, ha⟩
    · rw [firstReserved, if_neg ha] at h
      obtain ⟨hmem, hown⟩ := ih h
      exact ⟨List.mem_cons_of_mem a hmem, hown⟩

/-- The outcome of `LimitToFirstRequester.evaluate` on a CSR that parses and
carries a SAN extension: allowed exactly when no deny loop fires. -/
theorem firstRequester_evaluate_parsed (reserved : ReservedMap) (csr : Csr)
    (relation_id : Int) (subjects dnss ips oids : List String)
    (hparse : csr.parse = CsrParse.parsed subjects dnss ips oids) :
    (LimitToFirstRequester.evaluate (some reserved) csr relation_id).2 =
      Except.ok (!((dnss ++ subjects).any (fun x => ownedByOther reserved.dns x relation_id) ||
        (ips ++ subjects).any (fun x => ownedByOther reserved.ip x relation_id) ||
        (oids ++ subjects).any (fun x => ownedByOther reserved.oid x relation_id))) := by
  unfold LimitToFirstRequester.evaluate
  rw [hparse]
  cases h1 : firstReserved reserved.dns relation_id (dnss ++ subjects) with
  | some d =>
    have hd := firstReserved_some _ _ _ _ h1
    have hany1 : ((dnss ++ subjects).any fun x => ownedByOther reserved.dns x relation_id) = true :=
      List.any_eq_true.2 ⟨d, hd.1, hd.2⟩
    simp only [h1, hany1, Bool.true_or, Bool.not_true]
  | none =>
    have hany1 : ((dnss ++ subjects).any fun x => ownedByOther reserved.dns x relation_id) = false :=
      List.any_eq_false.2 fun x hx => by
        simp [(firstReserved_eq_none_iff _ _ _).1 h1 x hx]
    cases h2 : firstReserved reserved.ip relation_id (ips ++ subjects) with
    | some i =>
      have hi := firstReserved_some _ _ _ _ h2
      have hany2 : ((ips ++ subjects).any fun x => ownedByOther reserved.ip x relation_id) = true :=
        List.any_eq_true.2 ⟨i, hi.1, hi.2⟩
      simp only [h1, h2, hany1, hany2, Bool.false_or, Bool.true_or, Bool.not_true]
    | none =>
      have hany2 : ((ips ++ subjects).any fun x => ownedByOther reserved.ip x relation_id) = false :=
        List.any_eq_false.2 fun x hx => by
          simp [(firstReserved_eq_none_iff _ _ _).1 h2 x hx]
      cases h3 : firstReserved reserved.oid relation_id (oids ++ subjects) with
      | some o =>
        have ho := firstReserved_some _ _ _ _ h3
        have hany3 : ((oids ++ subjects).any fun x => ownedByOther reserved.oid x relation_id) = true :=
          List.any_eq_true.2 ⟨o, ho.1, ho.2⟩
        simp only [h1, h2, h3, hany1, hany2, hany3, Bool.false_or, Bool.not_true]
      | none =>
        have hany3 : ((oids ++ subjects).any fun x => ownedByOther reserved.oid x relation_id) = false :=
          List.any_eq_false.2 fun x hx => by
            simp [(firstReserved_eq_none_iff _ _ _).1 h3 x hx]
        simp only [h1, h2, h3, hany1, hany2, hany3, Bool.false_or, Bool.not_false]

/-- C2: `LimitToFirstRequester.evaluate` (with the peer store available)
returns `false` iff some identifier — a SAN DNS name against the dns table,
a SAN IP address (canonical string) against the ip table, a SAN OID dotted
string against the oid table, and every subject common name against all
three tables — has a recorded owner whose relation id differs from the
requesting one; otherwise it returns `true`. -/
theorem firstRequester_evaluate_false_iff (reserved : ReservedMap) (csr : Csr)
    (relation_id : Int) (subjects dnss ips oids : List String)
    (hparse : csr.parse = CsrParse.parsed subjects dnss ips oids) :
    ((LimitToFirstRequester.evaluate (some reserved) csr relation_id).2 = Except.ok false ↔
      ((∃ x ∈ dnss ++ subjects, ∃ t, dget reserved.dns x = some t ∧ t ≠ relation_id) ∨
        (∃ x ∈ ips ++ subjects, ∃ t, dget reserved.ip x = some t ∧ t ≠ relation_id) ∨
        (∃ x ∈ oids ++ subjects, ∃ t, dget reserved.oid x = some t ∧ t ≠ relation_id))) ∧
    ((LimitToFirstRequester.evaluate (some reserved) csr relation_id).2 = Except.ok true ↔
      ¬((∃ x ∈ dnss ++ subjects, ∃ t, dget reserved.dns x = some t ∧ t ≠ relation_id) ∨
        (∃ x ∈ ips ++ subjects, ∃ t, dget reserved.ip x = some t ∧ t ≠ relation_id) ∨
        (∃ x ∈ oids ++ subjects, ∃ t, dget reserved.oid x = some t ∧ t ≠ relation_id))) := by
  rw [firstRequester_evaluate_parsed reserved csr relation_id subjects dnss ips oids hparse]
  have hB : (((dnss ++ subjects).any fun x => ownedByOther reserved.dns x relation_id) ||
      ((ips ++ subjects).any fun x => ownedByOther reserved.ip x relation_id) ||
      ((oids ++ subjects).any fun x => ownedByOther reserved.oid x relation_id)) = true ↔
      ((∃ x ∈ dnss ++ subjects, ∃ t, dget reserved.dns x = some t ∧ t ≠ relation_id) ∨
        (∃ x ∈ ips ++ subjects, ∃ t, dget reserved.ip x = some t ∧ t ≠ relation_id) ∨
        (∃ x ∈ oids ++ subjects, ∃ t, dget reserved.oid x = some t ∧ t ≠ relation_id)) := by
    simp only [Bool.or_eq_true, List.any_eq_true, ownedByOther_eq_true_iff, or_assoc]
  by_cases hD : ((∃ x ∈ dnss ++ subjects, ∃ t, dget reserved.dns x = some t ∧ t ≠ relation_id) ∨
      (∃ x ∈ ips ++ subjects, ∃ t, dget reserved.ip x = some t ∧ t ≠ relation_id) ∨
      (∃ x ∈ oids ++ subjects, ∃ t, dget reserved.oid x = some t ∧ t ≠ relation_id))
  · rw [hB.2 hD]
    exact ⟨⟨fun _ => hD, fun _ => rfl⟩,
      ⟨fun h => by simp at h, fun h => absurd hD h⟩⟩
  · have hfalse : (((dnss ++ subjects).any fun x => ownedByOther reserved.dns x relation_id) ||
        ((ips ++ subjects).any fun x => ownedByOther reserved.ip x relation_id) ||
        ((oids ++ subjects).any fun x => ownedByOther reserved.oid x relation_id)) = false := by
      cases hv : (((dnss ++ subjects).any fun x => ownedByOther reserved.dns x relation_id) ||
          ((ips ++ subjects).any fun x => ownedByOther reserved.ip x relation_id) ||
          ((oids ++ subjects).any fun x => ownedByOther reserved.oid x relation_id))
      · rfl
      · exact absurd (hB.1 hv) hD
    rw [hfalse]
    exact ⟨⟨fun h => by simp at h, fun h => absurd h hD⟩,
      ⟨fun _ => hD, fun _ => rfl⟩⟩


/-- C2 witness: a concrete table and CSR on which the deny condition holds
(a SAN DNS name owned by another relation) and the evaluation denies. -/
theorem firstRequester_evaluate_false_iff_witness :
    (⟨"pem", CsrParse.parsed ["cn"] ["a.example"] [] []⟩ : Csr).parse =
        CsrParse.parsed ["cn"] ["a.example"] [] [] ∧
      ((LimitToFirstRequester.evaluate
          (some ⟨[("a.example", 2)], [], []⟩) ⟨"pem", CsrParse.parsed ["cn"] ["a.example"] [] []⟩
          1).2 = Except.ok false ↔
        ((∃ x ∈ ["a.example"] ++ ["cn"], ∃ t,
            dget [("a.example", 2)] x = some t ∧ t ≠ 1) ∨
          (∃ x ∈ [] ++ ["cn"], ∃ t, dget ([] : List (String × Int)) x = some t ∧ t ≠ 1) ∨
          (∃ x ∈ [] ++ ["cn"], ∃ t, dget ([] : List (String × Int)) x = some t ∧ t ≠ 1))) :=
  ⟨rfl, (firstRequester_evaluate_false_iff ⟨[("a.example", 2)], [], []⟩
    ⟨"pem", CsrParse.parsed ["cn"] ["a.example"] [] []⟩ 1 ["cn"] ["a.example"] [] [] rfl).1⟩

/-- C6: with the peer relation unavailable, `LimitToFirstRequester.evaluate`
returns `false` for every CSR and every relation id, and emits the
missing-peer-relation error diagnostic. -/
theorem firstRequester_failClosed (csr : Csr) (relation_id : Int) :
    LimitToFirstRequester.evaluate none csr relation_id =
      ([Diag.peerRelationMissing], Except.ok false) := rfl

/-- C3: the admission pipeline does crash on bad CSR bytes.  With
`LimitToFirstRequester` active and the peer relation present, a CSR whose
bytes do not parse propagates `ValueError`, and a CSR without a
SubjectAlternativeName extension propagates `x509.ExtensionNotFound`,
out of `_is_certificate_allowed` instead of producing a deny decision. -/
theorem admission_crashes_on_bad_csr :
    isCertificateAllowed ⟨true, true⟩ (some ⟨[], [], []⟩)
        ⟨"bad-bytes", CsrParse.malformed⟩ 1 [] = Except.error EvalErr.parseError ∧
      isCertificateAllowed ⟨true, true⟩ (some ⟨[], [], []⟩)
        ⟨"no-san", CsrParse.noSAN ["cn"]⟩ 1 [] = Except.error EvalErr.extensionNotFound := by
  constructor <;> rfl

/-! ## Lemmas about the controller -/

theorem evalAll_ok_true_iff (filters : List CsrFilter) (relation : Option ReservedMap)
    (csr : Csr) (relation_id : Int) (requirer_csrs : List RequirerCSR) :
    evalAll filters relation csr relation_id requirer_csrs = Except.ok true ↔
      ∀ f ∈ filters,
        evaluateFilter f relation csr relation_id requirer_csrs = Except.ok true := by
  induction filters with
  | nil => simp [evalAll]
  | cons f rest ih =>
    cases h : evaluateFilter f relation csr relation_id requirer_csrs with
    | error e =>
      simp only [evalAll, h]
      constructor
      · intro hc; cases hc
      · intro hall
        have := hall f (List.mem_cons_self f rest)
        rw [h] at this
        cases this
    | ok b =>
      cases b
      · simp only [evalAll, h]
        constructor
        · intro hc; cases hc
        · intro hall
          have := hall f (List.mem_cons_self f rest)
          rw [h] at this
          cases this
      · simp only [evalAll, h, List.forall_mem_cons, ih, h, true_and]

theorem evalAll_ok_false_exists (filters : List CsrFilter) (relation : Option ReservedMap)
    (csr : Csr) (relation_id : Int) (requirer_csrs : List RequirerCSR)
    (h : evalAll filters relation csr relation_id requirer_csrs = Except.ok false) :
    ∃ f ∈ filters,
      evaluateFilter f relation csr relation_id requirer_csrs = Except.ok false := by
  induction filters with
  | nil => cases h
  | cons f rest ih =>
    cases hf : evaluateFilter f relation csr relation_id requirer_csrs with
    | error e => rw [evalAll, hf] at h; cases h
    | ok b =>
      cases b
      · exact ⟨f, List.mem_cons_self f rest, hf⟩
      · rw [evalAll, hf] at h
        obtain ⟨g, hg, hgf⟩ := ih h
        exact ⟨g, List.mem_cons_of_mem f hg, hgf⟩

theorem runCallbacks_ok_invoked (filters : List CsrFilter) (relation : Option ReservedMap)
    (csr : Csr) (relation_id : Int) (relation' : Option ReservedMap)
    (invoked : List CsrFilter)
    (h : runCallbacks filters relation csr relation_id = Except.ok (relation', invoked)) :
    invoked = filters := by
  induction filters generalizing relation relation' invoked with
  | nil =>
    rw [runCallbacks] at h
    cases h
    rfl
  | cons f rest ih =>
    cases hc : callbackFilter f relation csr relation_id with
    | error e => rw [runCallbacks, hc] at h; cases h
    | ok rel' =>
      cases hr : runCallbacks rest rel' csr relation_id with
      | error e =>
        simp only [runCallbacks, hc, hr] at h
        cases h
      | ok out =>
        obtain ⟨rel'', inv⟩ := out
        simp only [runCallbacks, hc, hr, Except.ok.injEq, Prod.mk.injEq] at h
        obtain ⟨-, rfl⟩ := h
        rw [ih rel' rel'' inv hr]

/-- C1: the admission decision exists (no exception) exactly when
`_is_certificate_allowed` returns, and then the decision is `True` iff every
active filter's `evaluate` returned `True`; on the allowed path the
callbacks of exactly the active filters are invoked, in chain order, once
each (the chain has no duplicate filters); on the denied path no callback is
invoked and the state is untouched. -/
theorem isCertificateAllowed_spec (config : Config) (relation : Option ReservedMap)
    (csr : Csr) (relation_id : Int) (requirer_csrs : List RequirerCSR)
    (allowed : Bool) (relation' : Option ReservedMap) (invoked : List CsrFilter)
    (h : isCertificateAllowed config relation csr relation_id requirer_csrs =
      Except.ok (allowed, relation', invoked)) :
    (allowed = true ↔ ∀ f ∈ getCsrFilters config,
        evaluateFilter f relation csr relation_id requirer_csrs = Except.ok true) ∧
      (allowed = true → invoked = getCsrFilters config) ∧
      (allowed = false → invoked = [] ∧ relation' = relation) ∧
      (getCsrFilters config).Nodup := by
  have hnodup : (getCsrFilters config).Nodup := by
    rcases config with ⟨b1, b2⟩
    cases b1 <;> cases b2 <;> decide
  cases he : evalAll (getCsrFilters config) relation csr relation_id requirer_csrs with
  | error e =>
    simp only [isCertificateAllowed, he] at h
    cases h
  | ok b =>
    cases b
    · simp only [isCertificateAllowed, he, Except.ok.injEq, Prod.mk.injEq] at h
      obtain ⟨rfl, rfl, rfl⟩ := h
      refine ⟨?_, ?_, fun _ => ⟨rfl, rfl⟩, hnodup⟩
      · constructor
        · intro hc; cases hc
        · intro hall
          obtain ⟨f, hf, hfeval⟩ := evalAll_ok_false_exists _ _ _ _ _ he
          rw [hall f hf] at hfeval
          cases hfeval
      · intro hc; cases hc
    · cases hr : runCallbacks (getCsrFilters config) relation csr relation_id with
      | error e =>
        simp only [isCertificateAllowed, he, hr] at h
        cases h
      | ok out =>
        obtain ⟨rel'', inv⟩ := out
        simp only [isCertificateAllowed, he, hr, Except.ok.injEq, Prod.mk.injEq] at h
        obtain ⟨rfl, rfl, rfl⟩ := h
        refine ⟨?_, ?_, ?_, hnodup⟩
        · exact ⟨fun _ => (evalAll_ok_true_iff _ _ _ _ _).1 he, fun _ => rfl⟩
        · intro _
          exact runCallbacks_ok_invoked _ _ _ _ _ _ hr
        · intro hc; cases hc

/-- C1 witness: with both filters enabled, an empty reservation table and no
outstanding CSRs, a parsed CSR is allowed, both evaluates returned true, and
both callbacks ran in chain order. -/
theorem isCertificateAllowed_spec_witness :
    (true = true ↔ ∀ f ∈ getCsrFilters ⟨true, true⟩,
        evaluateFilter f (some ⟨[], [], []⟩)
          ⟨"pem", CsrParse.parsed ["cn"] ["a.example"] [] []⟩ 1 [] = Except.ok true) ∧
      (true = true → [CsrFilter.limitToOneRequest, CsrFilter.limitToFirstRequester] =
        getCsrFilters ⟨true, true⟩) ∧
      (true = false → [CsrFilter.limitToOneRequest, CsrFilter.limitToFirstRequester] = [] ∧
        (some (⟨[("a.example", 1)], [], []⟩ : ReservedMap)) = some ⟨[], [], []⟩) ∧
      (getCsrFilters ⟨true, true⟩).Nodup :=
  isCertificateAllowed_spec ⟨true, true⟩ (some ⟨[], [], []⟩)
    ⟨"pem", CsrParse.parsed ["cn"] ["a.example"] [] []⟩ 1 [] true
    (some ⟨[("a.example", 1)], [], []⟩)
    [CsrFilter.limitToOneRequest, CsrFilter.limitToFirstRequester] rfl

/-! ## Claims about LimitToOneRequest -/

/-- C5: `LimitToOneRequest.evaluate` returns `false` iff at least two
entries of the outstanding requirer CSRs carry the requesting relation id,
for any content of the submitted CSR bytes, and its callback changes no
state. -/
theorem limitToOneRequest_evaluate_spec (relation : Option ReservedMap) (csr csr' : Csr)
    (relation_id : Int) (requirer_csrs : List RequirerCSR) :
    (LimitToOneRequest.evaluate csr relation_id requirer_csrs = false ↔
      2 ≤ requirer_csrs.countP (fun c => c.relation_id == relation_id)) ∧
    LimitToOneRequest.evaluate csr relation_id requirer_csrs =
      LimitToOneRequest.evaluate csr' relation_id requirer_csrs ∧
    callbackFilter CsrFilter.limitToOneRequest relation csr relation_id = Except.ok relation := by
  refine ⟨?_, rfl, rfl⟩
  rw [List.countP_eq_length_filter]
  constructor
  · intro hfalse
    by_cases h : 1 < (requirer_csrs.filter fun c => c.relation_id == relation_id).length
    · omega
    · simp [LimitToOneRequest.evaluate, h] at hfalse
  · intro h2
    have h : 1 < (requirer_csrs.filter fun c => c.relation_id == relation_id).length := by
      omega
    simp [LimitToOneRequest.evaluate, h]

/-- C4: for a tenant with exactly one outstanding entry, submitting a
distinct CSR is denied by `LimitToOneRequest.evaluate` (the Tenant Channel
has added the new CSR to the outstanding set), while resubmitting the same
CSR is allowed. -/
theorem limitToOneRequest_second_request (requirer_csrs : List RequirerCSR)
    (relation_id : Int) (csr0 csr : Csr)
    (hone : (requirer_csrs.filter (fun c => c.relation_id == relation_id)).length = 1)
    (hmem : (⟨relation_id, csr0⟩ : RequirerCSR) ∈ requirer_csrs) :
    (csr ≠ csr0 → LimitToOneRequest.evaluate csr relation_id
        (submitCsr requirer_csrs relation_id csr) = false) ∧
      (csr = csr0 → LimitToOneRequest.evaluate csr relation_id
        (submitCsr requirer_csrs relation_id csr) = true) := by
  obtain ⟨x, hx⟩ := List.length_eq_one.1 hone
  have hx0 : (⟨relation_id, csr0⟩ : RequirerCSR) = x := by
    have hmf : (⟨relation_id, csr0⟩ : RequirerCSR) ∈
        requirer_csrs.filter (fun c => c.relation_id == relation_id) :=
      List.mem_filter.2 ⟨hmem, by simp⟩
    rw [hx] at hmf
    simpa using hmf
  constructor
  · intro hne
    have hany : requirer_csrs.any
        (fun r => r.relation_id == relation_id && r.csr == csr) = false := by
      rw [Bool.eq_false_iff]
      intro hc
      obtain ⟨r, hr, hrp⟩ := List.any_eq_true.1 hc
      simp only [Bool.and_eq_true, beq_iff_eq] at hrp
      have hrfilter : r ∈ requirer_csrs.filter (fun c => c.relation_id == relation_id) :=
        List.mem_filter.2 ⟨hr, by simp [hrp.1]⟩
      rw [hx] at hrfilter
      have hrx : r = (⟨relation_id, csr0⟩ : RequirerCSR) :=
        (by simpa using hrfilter : r = x).trans hx0.symm
      rw [hrx] at hrp
      exact hne hrp.2.symm
    have hsubmit : submitCsr requirer_csrs relation_id csr =
        requirer_csrs ++ [⟨relation_id, csr⟩] := by
      simp [submitCsr, hany]
    have hfilter : ((requirer_csrs ++ [(⟨relation_id, csr⟩ : RequirerCSR)]).filter
        (fun c => c.relation_id == relation_id)) = [x, (⟨relation_id, csr⟩ : RequirerCSR)] := by
      rw [List.filter_append, hx]
      simp
    simp [LimitToOneRequest.evaluate, hsubmit, hfilter]
  · intro heq
    subst heq
    have hany : requirer_csrs.any
        (fun r => r.relation_id == relation_id && r.csr == csr) = true :=
      List.any_eq_true.2 ⟨⟨relation_id, csr⟩, hmem, by simp⟩
    have hsubmit : submitCsr requirer_csrs relation_id csr = requirer_csrs := by
      simp [submitCsr, hany]
    simp [LimitToOneRequest.evaluate, hsubmit, hone]

/-- C4 witness: relation 1 has the single outstanding CSR `pem1`; submitting
the distinct `pem2` is denied, resubmitting `pem1` is allowed. -/
theorem limitToOneRequest_second_request_witness :
    ((⟨"pem2", CsrParse.malformed⟩ : Csr) ≠ ⟨"pem1", CsrParse.malformed⟩ →
      LimitToOneRequest.evaluate ⟨"pem2", CsrParse.malformed⟩ 1
        (submitCsr [⟨1, ⟨"pem1", CsrParse.malformed⟩⟩] 1
          ⟨"pem2", CsrParse.malformed⟩) = false) ∧
      ((⟨"pem2", CsrParse.malformed⟩ : Csr) = ⟨"pem1", CsrParse.malformed⟩ →
        LimitToOneRequest.evaluate ⟨"pem2", CsrParse.malformed⟩ 1
          (submitCsr [⟨1, ⟨"pem1", CsrParse.malformed⟩⟩] 1
            ⟨"pem2", CsrParse.malformed⟩) = true) :=
  limitToOneRequest_second_request [⟨1, ⟨"pem1", CsrParse.malformed⟩⟩] 1
    ⟨"pem1", CsrParse.malformed⟩ ⟨"pem2", CsrParse.malformed⟩ (by decide) (by decide)

/-! ## Claims about the relation resolver -/

theorem dedup_all_eq (l : List Int) (rid : Int) (hne : l ≠ [])
    (hall : ∀ x ∈ l, x = rid) : l.dedup = [rid] := by
  induction l with
  | nil => exact absurd rfl hne
  | cons a t ih =>
    have ha : a = rid := hall a (List.mem_cons_self a t)
    cases t with
    | nil => simp [ha]
    | cons b t' =>
      have hb : b = rid := hall b (by simp)
      have hmem : a ∈ b :: t' := by
        rw [ha, hb]
        exact List.mem_cons_self rid t'
      rw [List.dedup_cons_of_mem hmem]
      exact ih (by simp) (fun x hx => hall x (List.mem_cons_of_mem a hx))

/-- C7: the relation resolver matches by exact CSR byte equality over the
outstanding set: if exactly one distinct relation id matches it is returned;
with no matching entry, or with two matching entries of distinct relation
ids, it returns `None`, and in both of those cases the certificate-available
handler drops the certificate (it is delivered to no relation). -/
theorem getRelationIdForCsr_spec (requirer_csrs : List RequirerCSR) (csr : String) :
    (∀ rid : Int, (∃ r ∈ requirer_csrs, r.csr.bytes = csr ∧ r.relation_id = rid) →
      (∀ r ∈ requirer_csrs, r.csr.bytes = csr → r.relation_id = rid) →
      getRelationIdForCsr requirer_csrs csr = some rid) ∧
    ((∀ r ∈ requirer_csrs, r.csr.bytes ≠ csr) →
      getRelationIdForCsr requirer_csrs csr = none ∧
      onCertificateAvailable requirer_csrs csr = none) ∧
    (∀ r₁ ∈ requirer_csrs, ∀ r₂ ∈ requirer_csrs,
      r₁.csr.bytes = csr → r₂.csr.bytes = csr → r₁.relation_id ≠ r₂.relation_id →
      getRelationIdForCsr requirer_csrs csr = none ∧
      onCertificateAvailable requirer_csrs csr = none) := by
  refine ⟨?_, ?_, ?_⟩
  · intro rid hexists hall
    obtain ⟨r, hr, hrb, hrid⟩ := hexists
    have hrmem : rid ∈ (requirer_csrs.filter (fun c => c.csr.bytes == csr)).map
        (fun c => c.relation_id) :=
      List.mem_map.2 ⟨r, List.mem_filter.2 ⟨hr, by simp [hrb]⟩, hrid⟩
    have hdedup : ((requirer_csrs.filter (fun c => c.csr.bytes == csr)).map
        (fun c => c.relation_id)).dedup = [rid] := by
      apply dedup_all_eq _ rid (List.ne_nil_of_mem hrmem)
      intro x hx
      obtain ⟨c, hc, hcx⟩ := List.mem_map.1 hx
      obtain ⟨hcmem, hcb⟩ := List.mem_filter.1 hc
      simp only [beq_iff_eq] at hcb
      rw [← hcx]
      exact hall c hcmem hcb
    simp [getRelationIdForCsr, hdedup]
  · intro hnone
    have hfilter : requirer_csrs.filter (fun c => c.csr.bytes == csr) = [] :=
      List.filter_eq_nil_iff.2 (fun c hc => by simp [hnone c hc])
    have hres : getRelationIdForCsr requirer_csrs csr = none := by
      simp [getRelationIdForCsr, hfilter]
    exact ⟨hres, by simp [onCertificateAvailable, hres]⟩
  · intro r₁ hr₁ r₂ hr₂ hb₁ hb₂ hne
    have hmem₁ : r₁.relation_id ∈ ((requirer_csrs.filter
        (fun c => c.csr.bytes == csr)).map (fun c => c.relation_id)).dedup :=
      List.mem_dedup.2 (List.mem_map.2 ⟨r₁, List.mem_filter.2 ⟨hr₁, by simp [hb₁]⟩, rfl⟩)
    have hmem₂ : r₂.relation_id ∈ ((requirer_csrs.filter
        (fun c => c.csr.bytes == csr)).map (fun c => c.relation_id)).dedup :=
      List.mem_dedup.2 (List.mem_map.2 ⟨r₂, List.mem_filter.2 ⟨hr₂, by simp [hb₂]⟩, rfl⟩)
    have hres : getRelationIdForCsr requirer_csrs csr = none := by
      unfold getRelationIdForCsr
      cases hd : ((requirer_csrs.filter
          (fun c => c.csr.bytes == csr)).map (fun c => c.relation_id)).dedup with
      | nil =>
        rw [hd] at hmem₁
      | cons x t =>
        cases t with
        | nil =>
          rw [hd] at hmem₁ hmem₂
          have h1 : r₁.relation_id = x := by simpa using hmem₁
          have h2 : r₂.relation_id = x := by simpa using hmem₂
          exact absurd (h1.trans h2.symm) hne
        | cons y t' => simp [hd]
    exact ⟨hres, by simp [onCertificateAvailable, hres]⟩

/-- C7 witness: `{(1, x), (2, x)}` makes `x` ambiguous (dropped), a unique
`(1, x)` resolves to relation 1, and an absent CSR resolves to nothing. -/
theorem getRelationIdForCsr_spec_witness :
    (getRelationIdForCsr
        [⟨1, ⟨"x", CsrParse.malformed⟩⟩, ⟨2, ⟨"x", CsrParse.malformed⟩⟩] "x" = none ∧
      onCertificateAvailable
        [⟨1, ⟨"x", CsrParse.malformed⟩⟩, ⟨2, ⟨"x", CsrParse.malformed⟩⟩] "x" = none) ∧
    getRelationIdForCsr [⟨1, ⟨"x", CsrParse.malformed⟩⟩] "x" = some 1 ∧
    (getRelationIdForCsr [⟨1, ⟨"x", CsrParse.malformed⟩⟩] "y" = none ∧
      onCertificateAvailable [⟨1, ⟨"x", CsrParse.malformed⟩⟩] "y" = none) :=
  ⟨(getRelationIdForCsr_spec
      [⟨1, ⟨"x", CsrParse.malformed⟩⟩, ⟨2, ⟨"x", CsrParse.malformed⟩⟩] "x").2.2
      ⟨1, ⟨"x", CsrParse.malformed⟩⟩ (by decide) ⟨2, ⟨"x", CsrParse.malformed⟩⟩ (by decide)
      (by decide) (by decide) (by decide),
    (getRelationIdForCsr_spec [⟨1, ⟨"x", CsrParse.malformed⟩⟩] "x").1 1
      ⟨⟨1, ⟨"x", CsrParse.malformed⟩⟩, by decide, by decide, by decide⟩ (by decide),
    (getRelationIdForCsr_spec [⟨1, ⟨"x", CsrParse.malformed⟩⟩] "y").2.1 (by decide)⟩

/-- C10: when the resolver yields relation id 0 for the certificate's CSR,
the handler's Python truthiness guard `if not relation_id:` treats it like a
missing match and the certificate is delivered to no relation. -/
theorem certificateAvailable_drops_zero (requirer_csrs : List RequirerCSR) (csr : String)
    (h : getRelationIdForCsr requirer_csrs csr = some 0) :
    onCertificateAvailable requirer_csrs csr = none := by
  simp [onCertificateAvailable, h]

/-- C10 witness: relation 0 is the unique requester of `x`, the resolver
finds it, and the handler still drops the certificate. -/
theorem certificateAvailable_drops_zero_witness :
    getRelationIdForCsr [⟨0, ⟨"x", CsrParse.malformed⟩⟩] "x" = some 0 ∧
    onCertificateAvailable [⟨0, ⟨"x", CsrParse.malformed⟩⟩] "x" = none :=
  ⟨by decide, certificateAvailable_drops_zero _ _ (by decide)⟩

/-! ## Claims about the First Claim Wins commit -/

/-- Inverting a successful `LimitToFirstRequester.evaluate`: the CSR parsed
with a SAN extension and no checked identifier is owned by another
relation. -/
theorem firstRequester_evaluate_ok_true_elim (reserved : ReservedMap) (csr : Csr)
    (relation_id : Int)
    (h : (LimitToFirstRequester.evaluate (some reserved) csr relation_id).2 = Except.ok true) :
    ∃ subjects dnss ips oids, csr.parse = CsrParse.parsed subjects dnss ips oids ∧
      (∀ x ∈ dnss ++ subjects, ownedByOther reserved.dns x relation_id = false) ∧
      (∀ x ∈ ips ++ subjects, ownedByOther reserved.ip x relation_id = false) ∧
      (∀ x ∈ oids ++ subjects, ownedByOther reserved.oid x relation_id = false) := by
  cases hp : csr.parse with
  | malformed => simp [LimitToFirstRequester.evaluate, hp] at h
  | noSAN s => simp [LimitToFirstRequester.evaluate, hp] at h
  | parsed subjects dnss ips oids =>
    rw [firstRequester_evaluate_parsed reserved csr relation_id subjects dnss ips oids hp] at h
    simp only [Except.ok.injEq] at h
    have hB : (((dnss ++ subjects).any fun x => ownedByOther reserved.dns x relation_id) ||
        ((ips ++ subjects).any fun x => ownedByOther reserved.ip x relation_id) ||
        ((oids ++ subjects).any fun x => ownedByOther reserved.oid x relation_id)) = false := by
      cases hv : (((dnss ++ subjects).any fun x => ownedByOther reserved.dns x relation_id) ||
          ((ips ++ subjects).any fun x => ownedByOther reserved.ip x relation_id) ||
          ((oids ++ subjects).any fun x => ownedByOther reserved.oid x relation_id))
      · rfl
      · rw [hv] at h; cases h
    rw [Bool.or_eq_false_iff, Bool.or_eq_false_iff] at hB
    refine ⟨subjects, dnss, ips, oids, rfl, ?_, ?_, ?_⟩
    · exact fun x hx => Bool.eq_false_iff.2 (List.any_eq_false.1 hB.1.1 x hx)
    · exact fun x hx => Bool.eq_false_iff.2 (List.any_eq_false.1 hB.1.2 x hx)
    · exact fun x hx => Bool.eq_false_iff.2 (List.any_eq_false.1 hB.2 x hx)

/-- The explicit result of `_update_reserved_identifier_mapping` on a CSR
that parses with a SAN extension, with the peer relation present. -/
theorem updateMapping_parsed (reserved : ReservedMap) (csr : Csr) (relation_id : Int)
    (subjects dnss ips oids : List String)
    (hp : csr.parse = CsrParse.parsed subjects dnss ips oids) :
    LimitToFirstRequester.updateReservedIdentifierMapping (some reserved) csr relation_id =
      Except.ok (some ⟨dunion reserved.dns (dnss.map (fun d => (d, relation_id))),
        dunion reserved.ip (ips.map (fun i => (i, relation_id))),
        dunion reserved.oid (oids.map (fun o => (o, relation_id)))⟩) := by
  simp [LimitToFirstRequester.updateReservedIdentifierMapping, hp, getReservedIdentifiers,
    setReservedIdentifiers]

theorem ownedByOther_dunion_const (m : List (String × Int)) (vals : List String)
    (rid : Int) (x : String) (h : ownedByOther m x rid = false) :
    ownedByOther (dunion m (vals.map (fun v => (v, rid)))) x rid = false := by
  unfold ownedByOther
  rw [dget_dunion_const]
  by_cases hx : x ∈ vals
  · simp [hx]
  · rw [if_neg hx]
    unfold ownedByOther at h
    exact h

/-- C8: First Claim Wins commit is idempotent for a same-tenant re-claim:
if `evaluate` allowed the CSR on table `reserved` and its commit produced
table `reserved₁`, then the identical CSR is still allowed on `reserved₁`
and committing it again leaves `reserved₁` unchanged. -/
theorem firstRequester_commit_idempotent (reserved reserved₁ : ReservedMap) (csr : Csr)
    (relation_id : Int)
    (heval : (LimitToFirstRequester.evaluate (some reserved) csr relation_id).2 =
      Except.ok true)
    (hcommit : LimitToFirstRequester.updateReservedIdentifierMapping (some reserved) csr
      relation_id = Except.ok (some reserved₁)) :
    (LimitToFirstRequester.evaluate (some reserved₁) csr relation_id).2 = Except.ok true ∧
      LimitToFirstRequester.updateReservedIdentifierMapping (some reserved₁) csr relation_id =
        Except.ok (some reserved₁) := by
  obtain ⟨subjects, dnss, ips, oids, hp, h1, h2, h3⟩ :=
    firstRequester_evaluate_ok_true_elim reserved csr relation_id heval
  rw [updateMapping_parsed reserved csr relation_id subjects dnss ips oids hp] at hcommit
  simp only [Except.ok.injEq, Option.some.injEq] at hcommit
  subst hcommit
  constructor
  · rw [firstRequester_evaluate_parsed _ csr relation_id subjects dnss ips oids hp]
    have ha1 : ((dnss ++ subjects).any fun x =>
        ownedByOther (dunion reserved.dns (dnss.map (fun d => (d, relation_id)))) x
          relation_id) = false :=
      List.any_eq_false.2 (fun x hx => by
        simp [ownedByOther_dunion_const _ _ _ _ (h1 x hx)])
    have ha2 : ((ips ++ subjects).any fun x =>
        ownedByOther (dunion reserved.ip (ips.map (fun i => (i, relation_id)))) x
          relation_id) = false :=
      List.any_eq_false.2 (fun x hx => by
        simp [ownedByOther_dunion_const _ _ _ _ (h2 x hx)])
    have ha3 : ((oids ++ subjects).any fun x =>
        ownedByOther (dunion reserved.oid (oids.map (fun o => (o, relation_id)))) x
          relation_id) = false :=
      List.any_eq_false.2 (fun x hx => by
        simp [ownedByOther_dunion_const _ _ _ _ (h3 x hx)])
    simp [ha1, ha2, ha3]
  · rw [updateMapping_parsed _ csr relation_id subjects dnss ips oids hp]
    simp only [Except.ok.injEq, Option.some.injEq, ReservedMap.mk.injEq]
    exact ⟨dunion_const_idem _ _ _, dunion_const_idem _ _ _, dunion_const_idem _ _ _⟩

/-- C8 witness: relation 1 claims `a.example` on the empty table; the
resulting table allows and absorbs an identical re-claim. -/
theorem firstRequester_commit_idempotent_witness :
    ((LimitToFirstRequester.evaluate (some ⟨[], [], []⟩)
        ⟨"pem", CsrParse.parsed ["cn"] ["a.example"] [] []⟩ 1).2 = Except.ok true ∧
      LimitToFirstRequester.updateReservedIdentifierMapping (some ⟨[], [], []⟩)
        ⟨"pem", CsrParse.parsed ["cn"] ["a.example"] [] []⟩ 1 =
        Except.ok (some ⟨[("a.example", 1)], [], []⟩)) ∧
    ((LimitToFirstRequester.evaluate (some ⟨[("a.example", 1)], [], []⟩)
        ⟨"pem", CsrParse.parsed ["cn"] ["a.example"] [] []⟩ 1).2 = Except.ok true ∧
      LimitToFirstRequester.updateReservedIdentifierMapping
        (some ⟨[("a.example", 1)], [], []⟩)
        ⟨"pem", CsrParse.parsed ["cn"] ["a.example"] [] []⟩ 1 =
        Except.ok (some ⟨[("a.example", 1)], [], []⟩)) :=
  ⟨⟨rfl, rfl⟩, firstRequester_commit_idempotent ⟨[], [], []⟩ ⟨[("a.example", 1)], [], []⟩
    ⟨"pem", CsrParse.parsed ["cn"] ["a.example"] [] []⟩ 1 rfl rfl⟩

/-! ## Claim C9: reservation entries persist across every event -/

theorem dget_preserved_dunion (m : List (String × Int)) (vals : List String) (rid : Int)
    (hsafe : ∀ x ∈ vals, ownedByOther m x rid = false)
    (k : String) (t : Int) (h : dget m k = some t) :
    dget (dunion m (vals.map (fun v => (v, rid)))) k = some t := by
  rw [dget_dunion_const]
  by_cases hk : k ∈ vals
  · have hsk := hsafe k hk
    unfold ownedByOther at hsk
    rw [h] at hsk
    have ht : t = rid := by simpa using hsk
    simp [hk, ht]
  · simp [hk, h]

theorem keys_nodup_dinsert (m : List (String × Int)) (k : String) (v : Int)
    (h : (m.map Prod.fst).Nodup) : ((dinsert m k v).map Prod.fst).Nodup := by
  unfold dinsert
  by_cases hany : m.any (fun p => p.1 = k) = true
  · rw [if_pos hany, List.map_map]
    have heq : m.map (Prod.fst ∘ fun p => if p.1 = k then (k, v) else p) =
        m.map Prod.fst := by
      apply List.map_congr_left
      intro p _
      by_cases hp : p.1 = k
      · simp [hp]
      · simp [hp]
    rw [heq]
    exact h
  · rw [if_neg hany, List.map_append]
    have hk : k ∉ m.map Prod.fst := by
      intro hc
      obtain ⟨p, hp, hpk⟩ := List.mem_map.1 hc
      exact hany (List.any_eq_true.2 ⟨p, hp, by simp [hpk]⟩)
    refine List.Nodup.append h (List.nodup_singleton k) ?_
    intro a ha hak
    rw [List.mem_singleton.1 hak] at ha
    exact hk ha

theorem keys_nodup_dunion (f m : List (String × Int))
    (h : (m.map Prod.fst).Nodup) : ((dunion m f).map Prod.fst).Nodup := by
  induction f generalizing m with
  | nil => exact h
  | cons p rest ih => exact ih _ (keys_nodup_dinsert m p.1 p.2 h)

/-- C9: in every reachable reservation-table state, each identifier has at
most one owner (lookup is single-valued and key uniqueness is preserved),
and no event handler — in particular a certificate revocation request or a
certificate invalidation — removes or reassigns an existing
`(identifier → relation id)` entry: the only writer is the First Claim Wins
commit, which merges new entries into the existing table. -/
theorem reservation_entries_persist (config : Config) (relation : Option ReservedMap)
    (e : Event) (m : ReservedMap) (hrel : relation = some m) :
    ∃ m', step config relation e = some m' ∧
      (∀ k t, dget m.dns k = some t → dget m'.dns k = some t) ∧
      (∀ k t, dget m.ip k = some t → dget m'.ip k = some t) ∧
      (∀ k t, dget m.oid k = some t → dget m'.oid k = some t) ∧
      ((m.dns.map Prod.fst).Nodup → (m'.dns.map Prod.fst).Nodup) ∧
      ((m.ip.map Prod.fst).Nodup → (m'.ip.map Prod.fst).Nodup) ∧
      ((m.oid.map Prod.fst).Nodup → (m'.oid.map Prod.fst).Nodup) := by
  subst hrel
  cases e with
  | revocationRequest csr hasProvider =>
    exact ⟨m, rfl, fun _ _ h => h, fun _ _ h => h, fun _ _ h => h, id, id, id⟩
  | certificateAvailable csr requirer_csrs =>
    exact ⟨m, rfl, fun _ _ h => h, fun _ _ h => h, fun _ _ h => h, id, id, id⟩
  | certificateInvalidated reason =>
    exact ⟨m, rfl, fun _ _ h => h, fun _ _ h => h, fun _ _ h => h, id, id, id⟩
  | allCertificatesInvalidated =>
    exact ⟨m, rfl, fun _ _ h => h, fun _ _ h => h, fun _ _ h => h, id, id, id⟩
  | creationRequest csr relation_id requirer_csrs hasProvider =>
    cases hasProvider with
    | false =>
      exact ⟨m, rfl, fun _ _ h => h, fun _ _ h => h, fun _ _ h => h, id, id, id⟩
    | true =>
      cases hall : isCertificateAllowed config (some m) csr relation_id requirer_csrs with
      | error err =>
        refine ⟨m, ?_, fun _ _ h => h, fun _ _ h => h, fun _ _ h => h, id, id, id⟩
        simp [step, hall]
      | ok out =>
        obtain ⟨allowed, rel', invoked⟩ := out
        cases allowed with
        | false =>
          refine ⟨m, ?_, fun _ _ h => h, fun _ _ h => h, fun _ _ h => h, id, id, id⟩
          simp [step, hall]
        | true =>
          have hstep : step config (some m)
              (Event.creationRequest csr relation_id requirer_csrs true) = rel' := by
            simp [step, hall]
          have hparts : evalAll (getCsrFilters config) (some m) csr relation_id
                requirer_csrs = Except.ok true ∧
              runCallbacks (getCsrFilters config) (some m) csr relation_id =
                Except.ok (rel', invoked) := by
            cases he : evalAll (getCsrFilters config) (some m) csr relation_id
                requirer_csrs with
            | error err => simp only [isCertificateAllowed, he] at hall; cases hall
            | ok b =>
              cases b with
              | false =>
                simp only [isCertificateAllowed, he, Except.ok.injEq, Prod.mk.injEq] at hall
                cases hall.1
              | true =>
                refine ⟨rfl, ?_⟩
                cases hr : runCallbacks (getCsrFilters config) (some m) csr
                    relation_id with
                | error err => simp only [isCertificateAllowed, he, hr] at hall; cases hall
                | ok out' =>
                  obtain ⟨rel'', inv⟩ := out'
                  simp only [isCertificateAllowed, he, hr, Except.ok.injEq,
                    Prod.mk.injEq] at hall
                  rw [hall.2.1, hall.2.2]
          obtain ⟨he, hr⟩ := hparts
          rcases config with ⟨b1, b2⟩
          cases b2 with
          | false =>
            -- no First Claim Wins filter in the chain: no callback writes
            have hrel' : rel' = some m := by
              cases b1 with
              | false =>
                simp only [getCsrFilters, runCallbacks, Except.ok.injEq,
                  Prod.mk.injEq] at hr
                exact hr.1.symm
              | true =>
                simp only [getCsrFilters, runCallbacks, callbackFilter,
                  Except.ok.injEq, Prod.mk.injEq] at hr
                exact hr.1.symm
            exact ⟨m, hstep.trans hrel', fun _ _ h => h, fun _ _ h => h,
              fun _ _ h => h, id, id, id⟩
          | true =>
            -- First Claim Wins is the last filter of the chain and it passed
            have hfr : (LimitToFirstRequester.evaluate (some m) csr relation_id).2 =
                Except.ok true := by
              have hmem : CsrFilter.limitToFirstRequester ∈ getCsrFilters ⟨b1, true⟩ := by
                cases b1 <;> simp [getCsrFilters]
              have := (evalAll_ok_true_iff _ _ _ _ _).1 he
                CsrFilter.limitToFirstRequester hmem
              simpa [evaluateFilter] using this
            obtain ⟨subjects, dnss, ips, oids, hp, h1, h2, h3⟩ :=
              firstRequester_evaluate_ok_true_elim m csr relation_id hfr
            have hupd := updateMapping_parsed m csr relation_id subjects dnss ips oids hp
            have hrel' : rel' = some ⟨dunion m.dns (dnss.map (fun d => (d, relation_id))),
                dunion m.ip (ips.map (fun i => (i, relation_id))),
                dunion m.oid (oids.map (fun o => (o, relation_id)))⟩ := by
              cases b1 with
              | false =>
                simp only [getCsrFilters, runCallbacks, callbackFilter,
                  LimitToFirstRequester.callback, hupd, Except.ok.injEq,
                  Prod.mk.injEq] at hr
                exact hr.1.symm
              | true =>
                simp only [getCsrFilters, runCallbacks, callbackFilter,
                  LimitToFirstRequester.callback, hupd, Except.ok.injEq,
                  Prod.mk.injEq] at hr
                exact hr.1.symm
            refine ⟨_, hstep.trans hrel', ?_, ?_, ?_, ?_, ?_, ?_⟩
            · exact fun k t h => dget_preserved_dunion m.dns dnss relation_id
                (fun x hx => h1 x (List.mem_append_left _ hx)) k t h
            · exact fun k t h => dget_preserved_dunion m.ip ips relation_id
                (fun x hx => h2 x (List.mem_append_left _ hx)) k t h
            · exact fun k t h => dget_preserved_dunion m.oid oids relation_id
                (fun x hx => h3 x (List.mem_append_left _ hx)) k t h
            · exact fun h => keys_nodup_dunion _ _ h
            · exact fun h => keys_nodup_dunion _ _ h
            · exact fun h => keys_nodup_dunion _ _ h

/-- C9 witness: a revocation request leaves a one-entry table untouched. -/
theorem reservation_entries_persist_witness :
    ∃ m', step ⟨true, true⟩ (some ⟨[("a.example", 1)], [], []⟩)
        (Event.revocationRequest ⟨"pem", CsrParse.malformed⟩ true) = some m' ∧
      (∀ k t, dget [("a.example", 1)] k = some t → dget m'.dns k = some t) ∧
      (∀ k t, dget ([] : List (String × Int)) k = some t → dget m'.ip k = some t) ∧
      (∀ k t, dget ([] : List (String × Int)) k = some t → dget m'.oid k = some t) ∧
      (([("a.example", 1)].map Prod.fst).Nodup → (m'.dns.map Prod.fst).Nodup) ∧
      ((([] : List (String × Int)).map Prod.fst).Nodup → (m'.ip.map Prod.fst).Nodup) ∧
      ((([] : List (String × Int)).map Prod.fst).Nodup → (m'.oid.map Prod.fst).Nodup) :=
  reservation_entries_persist ⟨true, true⟩ (some ⟨[("a.example", 1)], [], []⟩)
    (Event.revocationRequest ⟨"pem", CsrParse.malformed⟩ true)
    ⟨[("a.example", 1)], [], []⟩ rfl

end TLSConstraints
